import Mathlib

/-!
Verification of the event-storming workshop core (`eventstorming_mcp.py`):
entity model, mutation operations with referential-integrity cleanup,
pagination, statistics aggregation and the bounded trigger-graph flow trace.

The Python source is shallowly embedded: pydantic models become structures,
mutating tool bodies become pure functions from a `Workshop` (plus the data a
call would generate, such as fresh ids and the current timestamp) to a new
`Workshop`, and the recursive `trace_flow` closure becomes a fuel-indexed
function where the fuel is `max_depth - depth`.
-/

namespace EventStorming

/-- The 8 element type variants of `ElementType` in the source. -/
inductive ElementType where
  | event
  | command
  | actor
  | aggregate
  | policy
  | read_model
  | external_system
  | hotspot
deriving DecidableEq, Repr

/-- `EventStormingElement`: a typed node of the domain graph.  Timestamps are
kept as opaque strings exactly as in the source (ISO strings). -/
structure EventStormingElement where
  id : String
  type : ElementType
  name : String
  position : Nat
  notes : String
  created_at : String
  updated_at : String
  created_by : String
  triggers : List String
  triggered_by : List String
  bounded_context_id : Option String
deriving DecidableEq, Repr

/-- `BoundedContext`: a named group holding the denormalized member id list. -/
structure BoundedContext where
  id : String
  name : String
  description : String
  element_ids : List String
  color : Option String
deriving DecidableEq, Repr

/-- `WorkshopMetadata` of the aggregate root. -/
structure WorkshopMetadata where
  id : String
  name : String
  description : String
  domain : String
  created_at : String
  updated_at : String
  facilitators : List String
  schema_version : String
deriving DecidableEq, Repr

/-- `Workshop`: the aggregate root, unit of load/mutate/save. -/
structure Workshop where
  metadata : WorkshopMetadata
  elements : List EventStormingElement
  bounded_contexts : List BoundedContext
deriving DecidableEq, Repr

/-- `save_workshop` stamps `metadata.updated_at` with the current timestamp
before writing; the write itself is the external persistence boundary, so the
embedding keeps only the stamping, with the clock passed in as `now`. -/
def save_workshop (w : Workshop) (now : String) : Workshop :=
  { w with metadata := { w.metadata with updated_at := now } }

/-- `PaginationInfo` returned alongside every paginated slice. -/
structure PaginationInfo where
  page : Nat
  page_size : Nat
  total_items : Nat
  total_pages : Nat
  has_next : Bool
  has_prev : Bool
deriving DecidableEq, Repr

/-- `paginate_list`: Python's
`total_pages = (total_items + page_size - 1) // page_size if total_items > 0 else 0`,
`page = max(1, min(page, total_pages if total_pages > 0 else 1))`,
`items[start_idx:end_idx]` with `start_idx = (page-1)*page_size`,
`end_idx = start_idx + page_size`.  A Python slice `l[a:a+n]` is
`(l.drop a).take n`. -/
def paginate_list (items : List α) (page : Nat) (page_size : Nat) :
    List α × PaginationInfo :=
  let total_items := items.length
  let total_pages := if total_items > 0 then (total_items + page_size - 1) / page_size else 0
  let page := max 1 (min page (if total_pages > 0 then total_pages else 1))
  let start_idx := (page - 1) * page_size
  let paginated_items := (items.drop start_idx).take page_size
  (paginated_items,
    { page := page
      page_size := page_size
      total_items := total_items
      total_pages := total_pages
      has_next := decide (page < total_pages)
      has_prev := decide (page > 1) })

/-- Mutation of the first list entry satisfying `p` — the object Python's
`next((x for x in xs if p x), None)` aliases into the list, or the first
match of a `for`-loop that `break`s. -/
def update_first (p : α → Bool) (f : α → α) : List α → List α
  | [] => []
  | x :: xs => if p x then f x :: xs else x :: update_first p f xs

/-- Python `list.remove(v)`: removes the first occurrence of `v`. -/
def remove_first [DecidableEq α] (v : α) : List α → List α
  | [] => []
  | x :: xs => if x = v then xs else x :: remove_first v xs

/-- `delete_element`: look up the element (`NotFound`, i.e. `none`, if absent),
remove it from the collection, strip its id from every remaining element's
`triggers` and `triggered_by` and from every context's `element_ids`, save. -/
def delete_element (w : Workshop) (element_id : String) (now : String) :
    Option Workshop :=
  match w.elements.find? (fun e => e.id = element_id) with
  | none => none
  | some _ =>
    let elements := (w.elements.filter (fun e => e.id ≠ element_id)).map (fun e =>
      { e with triggers := e.triggers.filter (fun t => t ≠ element_id),
               triggered_by := e.triggered_by.filter (fun t => t ≠ element_id) })
    let bounded_contexts := w.bounded_contexts.map (fun c =>
      { c with element_ids := c.element_ids.filter (fun eid => eid ≠ element_id) })
    some (save_workshop
      { w with elements := elements, bounded_contexts := bounded_contexts } now)

/-- The caller-supplied fields of `AddElementInput` that the core consumes
(the workshop id addresses the snapshot and is not part of the state). -/
structure AddElementParams where
  type : ElementType
  name : String
  position : Option Nat
  notes : Option String
  created_by : Option String
  triggers : List String
  triggered_by : List String
  bounded_context_id : Option String
deriving DecidableEq, Repr

/-- `add_element`: auto-assigns a missing `position` as the count of existing
elements of the same type, appends the new element, and — when
`params.bounded_context_id` is truthy (Python: neither `None` nor the empty
string) — appends the fresh id to the first matching context's `element_ids`
if not already present.  The generated uuid and timestamp are passed in. -/
def add_element (w : Workshop) (params : AddElementParams)
    (element_id now : String) : Workshop × EventStormingElement :=
  let position := match params.position with
    | some p => p
    | none => (w.elements.filter (fun e => e.type = params.type)).length
  let element : EventStormingElement :=
    { id := element_id, type := params.type, name := params.name,
      position := position, notes := params.notes.getD "",
      created_at := now, updated_at := now,
      created_by := params.created_by.getD "",
      triggers := params.triggers, triggered_by := params.triggered_by,
      bounded_context_id := params.bounded_context_id }
  let w1 := { w with elements := w.elements ++ [element] }
  let w2 := match params.bounded_context_id with
    | some cid =>
        if cid ≠ "" then
          let bcs := update_first (fun c => c.id = cid)
            (fun c => if element_id ∈ c.element_ids then c
                      else { c with element_ids := c.element_ids ++ [element_id] })
            w1.bounded_contexts
          { w1 with bounded_contexts := bcs }
        else w1
    | none => w1
  (save_workshop w2 now, element)

/-- Result of `assign_to_context`: the saved workshop plus the `assigned` and
`not_found` id lists of the JSON response. -/
structure AssignOutcome where
  workshop : Workshop
  assigned : List String
  not_found : List String
deriving DecidableEq, Repr

/-- One found-element iteration of the `assign_to_context` loop body: set the
(first matching) element's `bounded_context_id`, then append its id to the
first matching context's `element_ids` unless already present. -/
def assign_step (context_id eid : String) (w : Workshop) : Workshop :=
  let w1 := { w with
    elements := update_first (fun e => e.id = eid)
      (fun e => { e with bounded_context_id := some context_id }) w.elements }
  { w1 with
    bounded_contexts := update_first (fun c => c.id = context_id)
      (fun c => if eid ∈ c.element_ids then c
                else { c with element_ids := c.element_ids ++ [eid] })
      w1.bounded_contexts }

/-- The `for element_id in params.element_ids` loop of `assign_to_context`:
an existing element id runs `assign_step` and is recorded as assigned; a
missing id goes to the non-fatal `not_found` list. -/
def assign_loop (context_id : String) :
    List String → Workshop → Workshop × List String × List String
  | [], w => (w, [], [])
  | eid :: rest, w =>
    match w.elements.find? (fun e => e.id = eid) with
    | some _ =>
      let r := assign_loop context_id rest (assign_step context_id eid w)
      (r.1, eid :: r.2.1, r.2.2)
    | none =>
      let r := assign_loop context_id rest w
      (r.1, r.2.1, eid :: r.2.2)

/-- `assign_to_context`: `NotFound` (`none`) only when the context id itself
does not exist; otherwise runs the per-element loop and saves once. -/
def assign_to_context (w : Workshop) (context_id : String)
    (element_ids : List String) (now : String) : Option AssignOutcome :=
  match w.bounded_contexts.find? (fun c => c.id = context_id) with
  | none => none
  | some _ =>
    let r := assign_loop context_id element_ids w
    some { workshop := save_workshop r.1 now, assigned := r.2.1, not_found := r.2.2 }

/-- Element lookup by id: Python's
`next((e for e in workshop.elements if e.id == x), None)`. -/
def elemFind (w : Workshop) (x : String) : Option EventStormingElement :=
  w.elements.find? (fun e => e.id = x)

/-- Bounded-context lookup by id: Python's
`next((c for c in workshop.bounded_contexts if c.id == x), None)`. -/
def ctxFind (w : Workshop) (x : String) : Option BoundedContext :=
  w.bounded_contexts.find? (fun c => c.id = x)

/-- The optional fields of `UpdateElementInput` (the patch). -/
structure UpdateElementPatch where
  name : Option String
  position : Option Nat
  notes : Option String
  triggers : Option (List String)
  triggered_by : Option (List String)
  bounded_context_id : Option String
deriving DecidableEq, Repr

/-- The patch with no field supplied. -/
def UpdateElementPatch.empty : UpdateElementPatch :=
  { name := none, position := none, notes := none, triggers := none,
    triggered_by := none, bounded_context_id := none }

/-- The field mutations `update_element` performs on the found element: each
supplied patch field overwrites, the `"null"` sentinel clears the context
assignment, and `updated_at` is re-stamped unconditionally. -/
def apply_patch (p : UpdateElementPatch) (now : String)
    (e : EventStormingElement) : EventStormingElement :=
  { e with
    name := p.name.getD e.name,
    position := p.position.getD e.position,
    notes := p.notes.getD e.notes,
    triggers := p.triggers.getD e.triggers,
    triggered_by := p.triggered_by.getD e.triggered_by,
    bounded_context_id :=
      match p.bounded_context_id with
      | some v => if v = "null" then none else some v
      | none => e.bounded_context_id,
    updated_at := now }

/-- The `updated_fields` list of the `update_element` response, in source
order. -/
def updated_fields_of (p : UpdateElementPatch) : List String :=
  (if p.name.isSome then ["name"] else []) ++
  (if p.position.isSome then ["position"] else []) ++
  (if p.notes.isSome then ["notes"] else []) ++
  (if p.triggers.isSome then ["triggers"] else []) ++
  (if p.triggered_by.isSome then ["triggered_by"] else []) ++
  (if p.bounded_context_id.isSome then ["bounded_context_id"] else [])

/-- `update_element`: `NotFound` (`none`) for a missing id; otherwise patches
the found element in place, and — only when the patch carries
`bounded_context_id` — walks every context, removing the element id from the
old context's `element_ids` and appending it to the new one's, then saves. -/
def update_element (w : Workshop) (element_id : String) (p : UpdateElementPatch)
    (now : String) : Option (List String × Workshop) :=
  match w.elements.find? (fun e => e.id = element_id) with
  | none => none
  | some el =>
    let old_context := el.bounded_context_id
    let new_context := match p.bounded_context_id with
      | some v => if v = "null" then none else some v
      | none => old_context
    let elements :=
      update_first (fun e => e.id = element_id) (apply_patch p now) w.elements
    let bounded_contexts :=
      match p.bounded_context_id with
      | none => w.bounded_contexts
      | some _ =>
        w.bounded_contexts.map (fun c =>
          let c1 := if old_context = some c.id ∧ element_id ∈ c.element_ids
                    then { c with element_ids := remove_first element_id c.element_ids }
                    else c
          if new_context = some c1.id ∧ element_id ∉ c1.element_ids
          then { c1 with element_ids := c1.element_ids ++ [element_id] }
          else c1)
    some (updated_fields_of p,
      save_workshop
        { w with elements := elements, bounded_contexts := bounded_contexts } now)

/-- Python dict assignment `d[k] = v`: overwrite in place when the key exists,
append otherwise (dicts preserve insertion order). -/
def dict_set (k : String) (v : Nat) : List (String × Nat) → List (String × Nat)
  | [] => [(k, v)]
  | kv :: rest => if kv.1 = k then (k, v) :: rest else kv :: dict_set k v rest

/-- The `by_context` dict of `get_statistics`:
`for ctx in workshop.bounded_contexts: stats["by_context"][ctx.name] = len(ctx.element_ids)`. -/
def stats_by_context (w : Workshop) : List (String × Nat) :=
  w.bounded_contexts.foldl (fun d c => dict_set c.name c.element_ids.length d) []

/-- One output line of `trace_flow`, structurally: the element header
f-string, the short-notes line, or a max-elements truncation marker. -/
inductive TraceLine where
  | header (indent : Nat) (type : ElementType) (name : String) (id : String)
  | note (indent : Nat) (notes : String)
  | limit_marker (indent : Nat)
deriving DecidableEq, Repr

/-- The traversal state `trace_flow` threads by aliasing: the shared
`element_count[0]` cell and the per-start `visited` set (as a list of the ids
in insertion order, newest first). -/
structure TraceState where
  element_count : Nat
  visited : List String
deriving DecidableEq, Repr

/-- The `for trigger_id in element.triggers` loop body of `trace_flow`: the
shared budget is re-checked before each child; hitting it emits one
truncation marker (one indent level deeper than the parent) and breaks. -/
def trace_children (max_elements : Nat) (indent : Nat)
    (step : String → TraceState → List TraceLine × TraceState) :
    List String → TraceState → List TraceLine × TraceState
  | [], st => ([], st)
  | trigger_id :: rest, st =>
    if max_elements ≤ st.element_count then
      ([TraceLine.limit_marker (indent + 1)], st)
    else
      let r1 := step trigger_id st
      let r2 := trace_children max_elements indent step rest r1.2
      (r1.1 ++ r2.1, r2.2)

/-- `trace_flow(element_id, depth, visited, indent)` with `fuel = max_depth - depth`,
so the Python guard `depth >= max_depth` is the `fuel = 0` case (reaching it
emits nothing and leaves the state untouched, exactly like an
already-visited node).  Guard order follows the source: depth/visited check,
then budget check (emitting a marker), then the visit (set insertion and
counter increment) — and only then the element lookup, which silently emits
nothing for an id matching no element. -/
def trace_flow (w : Workshop) (max_elements : Nat) :
    Nat → String → Nat → TraceState → List TraceLine × TraceState
  | 0, _, _, st => ([], st)
  | fuel + 1, element_id, indent, st =>
    if element_id ∈ st.visited then ([], st)
    else if max_elements ≤ st.element_count then
      ([TraceLine.limit_marker indent], st)
    else
      let st1 : TraceState :=
        { element_count := st.element_count + 1, visited := element_id :: st.visited }
      match w.elements.find? (fun e => e.id = element_id) with
      | none => ([], st1)
      | some element =>
        let head := [TraceLine.header indent element.type element.name element.id]
        let head := if element.notes ≠ "" ∧ element.notes.length < 100
                    then head ++ [TraceLine.note indent element.notes] else head
        let r := trace_children max_elements indent
          (fun tid st' => trace_flow w max_elements fuel tid (indent + 1) st')
          element.triggers st1
        (head ++ r.1, r.2)

/-- The directed mode of `visualize_flow`: `NotFound` (`none`) when the start
id is absent; otherwise one traversal from the start at depth 0 with a fresh
visited set and the zeroed shared counter. -/
def visualize_flow_directed (w : Workshop) (start_element_id : String)
    (max_depth max_elements : Nat) : Option (List TraceLine × TraceState) :=
  match w.elements.find? (fun e => e.id = start_element_id) with
  | none => none
  | some _ =>
      some (trace_flow w max_elements max_depth start_element_id 0
        { element_count := 0, visited := [] })

/-- A minimal event element for the concrete test workshops. -/
def mkElement (id : String) (triggers triggered_by : List String) :
    EventStormingElement :=
  { id := id, type := ElementType.event, name := id, position := 0, notes := "",
    created_at := "t0", updated_at := "t0", created_by := "",
    triggers := triggers, triggered_by := triggered_by, bounded_context_id := none }

/-- Metadata shared by the concrete test workshops. -/
def mkMetadata : WorkshopMetadata :=
  { id := "w", name := "w", description := "", domain := "", created_at := "t0",
    updated_at := "t0", facilitators := [], schema_version := "2.0" }

/-- The two-element trigger cycle A→B, B→A. -/
def cycleAB : Workshop :=
  { metadata := mkMetadata,
    elements := [mkElement "A" ["B"] ["B"], mkElement "B" ["A"] ["A"]],
    bounded_contexts := [] }

/-- The three-element trigger chain A→B→C. -/
def chainABC : Workshop :=
  { metadata := mkMetadata,
    elements := [mkElement "A" ["B"] [], mkElement "B" ["C"] ["A"],
      mkElement "C" [] ["B"]],
    bounded_contexts := [] }

/-- A single element A whose `triggers` list holds an id matching no element. -/
def danglingA : Workshop :=
  { metadata := mkMetadata, elements := [mkElement "A" ["ghost"] []],
    bounded_contexts := [] }

/-- A bounded context literal for the concrete test workshops. -/
def mkContext (id name : String) (element_ids : List String) : BoundedContext :=
  { id := id, name := name, description := "", element_ids := element_ids,
    color := none }

/-- Elements X and Y, Y triggering X, both members of context c1 — exercises
the delete cleanup. -/
def delWorkshop : Workshop :=
  { metadata := mkMetadata,
    elements := [mkElement "X" [] ["Y"], mkElement "Y" ["X"] []],
    bounded_contexts := [mkContext "c1" "c1" ["X", "Y"]] }

/-- Two bounded contexts sharing the name "X": the first has two members, the
second one member. -/
def twoCtxSameName : Workshop :=
  { metadata := mkMetadata,
    elements := [],
    bounded_contexts := [mkContext "c1" "X" ["e1", "e2"],
      mkContext "c2" "X" ["e3"]] }

/-- Two events and one command — the per-type auto-position test bed. -/
def wTwoEvents : Workshop :=
  { metadata := mkMetadata,
    elements := [mkElement "e1" [] [], mkElement "e2" [] [],
      { (mkElement "cmd" [] []) with type := ElementType.command }],
    bounded_contexts := [] }

/-- An `add_element` request for an event with no explicit position. -/
def paramsEvent : AddElementParams :=
  { type := ElementType.event, name := "e3", position := none, notes := none,
    created_by := none, triggers := [], triggered_by := [],
    bounded_context_id := none }

/-- A context c1 and two elements e1, e2 — the batch-assignment test bed. -/
def assignWorkshop : Workshop :=
  { metadata := mkMetadata,
    elements := [mkElement "e1" [] [], mkElement "e2" [] []],
    bounded_contexts := [mkContext "c1" "Context One" []] }

/-- Contexts a (holding element e) and b, with e assigned to a — the
re-assignment test bed. -/
def staleWorkshop : Workshop :=
  { metadata := mkMetadata,
    elements := [{ (mkElement "e" [] []) with bounded_context_id := some "a" }],
    bounded_contexts := [mkContext "a" "A" ["e"], mkContext "b" "B" []] }

/-- How one traversal step may transform the shared state: the counter grows
in lockstep with the visited set (one fresh id per counted unit), the visited
set only grows, the budget is never exceeded once under it, and distinctness
of the visited ids is preserved. -/
def StepOk (max_elements : Nat) (st st' : TraceState) : Prop :=
  st'.visited.length + st.element_count = st.visited.length + st'.element_count ∧
  (∃ new, st'.visited = new ++ st.visited) ∧
  (st.element_count ≤ max_elements → st'.element_count ≤ max_elements) ∧
  (st.visited.Nodup → st'.visited.Nodup)

section PaginateLemmas

variable {α : Type _}

theorem paginate_total_pages (items : List α) (page P : Nat) :
    (paginate_list items page P).2.total_pages =
      if items.length = 0 then 0 else (items.length + P - 1) / P := by
  simp only [paginate_list]
  rcases Nat.eq_zero_or_pos items.length with h | h
  · simp [h]
  · simp [h, h.ne']

theorem paginate_page_clamped (items : List α) (page P : Nat) :
    (paginate_list items page P).2.page =
      max 1 (min page (max (paginate_list items page P).2.total_pages 1)) := by
  simp only [paginate_list]
  rcases Nat.eq_zero_or_pos (if items.length > 0 then (items.length + P - 1) / P else 0)
    with h | h
  · rw [h]
    simp
  · rw [if_pos h]
    omega

theorem paginate_slice (items : List α) (page P : Nat) :
    (paginate_list items page P).1 =
      (items.drop (((paginate_list items page P).2.page - 1) * P)).take P := by
  rfl

/-- Chunk prefix lemma: concatenating the first `k` pages of size `P` yields
the first `k * P` items. -/
theorem join_chunks_take (items : List α) (P : Nat) :
    ∀ k, ((List.range k).map (fun i => (items.drop (i * P)).take P)).flatten
      = items.take (k * P) := by
  intro k
  induction k with
  | zero => simp
  | succ k ih =>
      rw [List.range_succ, List.map_append, List.flatten_append, ih]
      simp only [List.map_cons, List.map_nil, List.flatten_cons, List.flatten_nil,
        List.append_nil]
      rw [Nat.succ_mul, List.take_add]

/-- Ceiling division clears the length: `N ≤ ⌈N/P⌉ * P`. -/
theorem ceil_div_mul_ge (N P : Nat) (hP : 0 < P) (hN : 0 < N) :
    N ≤ (N + P - 1) / P * P := by
  have h1 : N + P - 1 = (N - 1) + P := by omega
  rw [h1, Nat.add_div_right _ hP]
  have h2 : (N - 1) / P < (N - 1) / P + 1 := Nat.lt_succ_self _
  have h3 : (N - 1) < ((N - 1) / P + 1) * P := (Nat.div_lt_iff_lt_mul hP).mp h2
  omega

/-- A page index `1 ≤ p ≤ total_pages` is not moved by the clamp, so the page-`p`
slice is `items[(p-1)*P : p*P]`. -/
theorem paginate_in_range_slice (items : List α) (p P : Nat)
    (hp1 : 1 ≤ p)
    (hp2 : p ≤ (if items.length = 0 then 0 else (items.length + P - 1) / P)) :
    (paginate_list items p P).1 = (items.drop ((p - 1) * P)).take P := by
  by_cases htp : items.length = 0
  · rw [if_pos htp] at hp2
    omega
  · rw [if_neg htp] at hp2
    have hlen : items.length > 0 := Nat.pos_of_ne_zero htp
    have hq : (items.length + P - 1) / P > 0 := by omega
    have hclamp : max 1 (min p ((items.length + P - 1) / P)) = p := by omega
    simp only [paginate_list, if_pos hlen, if_pos hq, hclamp]

/-- Concatenating pages `1 .. ⌈N/P⌉` in order reproduces the list. -/
theorem paginate_concat_pages (items : List α) (P : Nat) (hP1 : 1 ≤ P) :
    ((List.range ((items.length + P - 1) / P)).map
      (fun i => (paginate_list items (i + 1) P).1)).flatten = items := by
  have hmap : (List.range ((items.length + P - 1) / P)).map
      (fun i => (paginate_list items (i + 1) P).1) =
      (List.range ((items.length + P - 1) / P)).map
      (fun i => (items.drop (i * P)).take P) := by
    apply List.map_congr_left
    intro i hi
    rw [List.mem_range] at hi
    have hN : items.length ≠ 0 := by
      intro h0
      rw [h0] at hi
      have : (0 + P - 1) / P = 0 := Nat.div_eq_of_lt (by omega)
      omega
    have h2 : i + 1 ≤ if items.length = 0 then 0 else (items.length + P - 1) / P := by
      rw [if_neg hN]
      omega
    rw [paginate_in_range_slice items (i + 1) P (by omega) h2]
    simp
  rw [hmap, join_chunks_take]
  rcases Nat.eq_zero_or_pos items.length with h0 | h0
  · rw [List.length_eq_zero.mp h0]
    simp
  · exact List.take_of_length_le (ceil_div_mul_ge _ _ hP1 h0)

end PaginateLemmas

/-- C2: for any list and page size `P ∈ [1, 200]`, `total_pages = ⌈N/P⌉`
(0 when `N = 0`), the requested page is clamped into `[1, max(total_pages, 1)]`,
the returned slice is `items[(page-1)*P : page*P]` for the clamped page, and
concatenating pages `1 .. ⌈N/P⌉` in order reproduces the whole list, each item
exactly once. -/
theorem pagination_contract (items : List α) (page P : Nat)
    (hP1 : 1 ≤ P) (hP2 : P ≤ 200) :
    ((paginate_list items page P).2.total_pages =
        if items.length = 0 then 0 else (items.length + P - 1) / P) ∧
    ((paginate_list items page P).2.page =
        max 1 (min page (max (paginate_list items page P).2.total_pages 1))) ∧
    ((paginate_list items page P).1 =
        (items.drop (((paginate_list items page P).2.page - 1) * P)).take P) ∧
    (((List.range ((items.length + P - 1) / P)).map
        (fun i => (paginate_list items (i + 1) P).1)).flatten = items) :=
  ⟨paginate_total_pages items page P, paginate_page_clamped items page P,
    paginate_slice items page P, paginate_concat_pages items P hP1⟩

/-- Witness for C2 at `items = [10, 20, 30]`, `P = 2`, `page = 4`. -/
theorem pagination_contract_witness :
    (1 ≤ 2 ∧ 2 ≤ 200) ∧
    ((paginate_list ([10, 20, 30] : List Nat) 4 2).2.page =
        max 1 (min 4 (max (paginate_list ([10, 20, 30] : List Nat) 4 2).2.total_pages 1))) ∧
    (((List.range ((([10, 20, 30] : List Nat).length + 2 - 1) / 2)).map
        (fun i => (paginate_list ([10, 20, 30] : List Nat) (i + 1) 2).1)).flatten
      = [10, 20, 30]) :=
  ⟨⟨by decide, by decide⟩,
    (pagination_contract ([10, 20, 30] : List Nat) 4 2 (by decide) (by decide)).2.1,
    (pagination_contract ([10, 20, 30] : List Nat) 4 2 (by decide) (by decide)).2.2.2⟩

theorem stepOk_refl {m : Nat} {st : TraceState} : StepOk m st st :=
  ⟨rfl, ⟨[], rfl⟩, id, id⟩

theorem stepOk_trans {m : Nat} {s1 s2 s3 : TraceState}
    (h12 : StepOk m s1 s2) (h23 : StepOk m s2 s3) : StepOk m s1 s3 := by
  obtain ⟨l12, ⟨n12, hn12⟩, b12, d12⟩ := h12
  obtain ⟨l23, ⟨n23, hn23⟩, b23, d23⟩ := h23
  refine ⟨by omega, ⟨n23 ++ n12, by rw [hn23, hn12, List.append_assoc]⟩,
    fun h => b23 (b12 h), fun h => d23 (d12 h)⟩

theorem trace_children_stepOk (m ind : Nat)
    (step : String → TraceState → List TraceLine × TraceState)
    (hstep : ∀ tid st, StepOk m st (step tid st).2) :
    ∀ (tids : List String) (st : TraceState),
      StepOk m st (trace_children m ind step tids st).2 := by
  intro tids
  induction tids with
  | nil => intro st; exact stepOk_refl
  | cons t rest ih =>
      intro st
      simp only [trace_children]
      by_cases h : m ≤ st.element_count
      · simp only [if_pos h]
        exact stepOk_refl
      · simp only [if_neg h]
        exact stepOk_trans (hstep t st) (ih _)

theorem trace_flow_stepOk (w : Workshop) (m : Nat) :
    ∀ (fuel : Nat) (eid : String) (ind : Nat) (st : TraceState),
      StepOk m st (trace_flow w m fuel eid ind st).2 := by
  intro fuel
  induction fuel with
  | zero => intro eid ind st; exact stepOk_refl
  | succ fuel ih =>
      intro eid ind st
      simp only [trace_flow]
      by_cases h1 : eid ∈ st.visited
      · simp only [if_pos h1]
        exact stepOk_refl
      · simp only [if_neg h1]
        by_cases h2 : m ≤ st.element_count
        · simp only [if_pos h2]
          exact stepOk_refl
        · simp only [if_neg h2]
          have hvisit : StepOk m st
              { element_count := st.element_count + 1, visited := eid :: st.visited } := by
            refine ⟨?_, ⟨[eid], rfl⟩, fun _ => Nat.succ_le_of_lt (Nat.not_le.mp h2),
              fun hnd => List.nodup_cons.mpr ⟨h1, hnd⟩⟩
            show st.visited.length + 1 + st.element_count
              = st.visited.length + (st.element_count + 1)
            omega
          cases hfind : w.elements.find? (fun e => decide (e.id = eid)) with
          | none =>
              simp only [hfind]
              exact hvisit
          | some el =>
              simp only [hfind]
              exact stepOk_trans hvisit
                (trace_children_stepOk m ind _ (fun tid st' => ih tid (ind + 1) st')
                  el.triggers _)

/-- C1: from any start element, with any depth and element budget, the flow
trace terminates (it is a total function) having visited a duplicate-free set
of at most `max_elements` ids; on the two-cycle A→B, B→A, tracing from A with
`max_depth = 5`, `max_elements = 100` visits exactly A and B (in that
insertion order on the newest-first visited list) and emits exactly their two
header lines. -/
theorem flow_trace_budget_and_cycle_termination :
    (∀ (w : Workshop) (max_depth max_elements : Nat) (start_id : String),
      (trace_flow w max_elements max_depth start_id 0
          { element_count := 0, visited := [] }).2.visited.Nodup ∧
      (trace_flow w max_elements max_depth start_id 0
          { element_count := 0, visited := [] }).2.visited.length ≤ max_elements) ∧
    (trace_flow cycleAB 100 5 "A" 0 { element_count := 0, visited := [] }).2.visited
        = ["B", "A"] ∧
    (trace_flow cycleAB 100 5 "A" 0 { element_count := 0, visited := [] }).1
        = [TraceLine.header 0 ElementType.event "A" "A",
           TraceLine.header 1 ElementType.event "B" "B"] := by
  refine ⟨fun w md me sid => ?_, by decide, by decide⟩
  obtain ⟨hlen, ⟨new, hnew⟩, hbud, hnd⟩ :=
    trace_flow_stepOk w me md sid 0 { element_count := 0, visited := [] }
  refine ⟨hnd List.nodup_nil, ?_⟩
  have hc : (trace_flow w me md sid 0
      { element_count := 0, visited := [] }).2.element_count ≤ me :=
    hbud (Nat.zero_le _)
  simp only [List.length_nil] at hlen
  omega

/-- C9: a trigger id matching no element of the workshop still consumes one
unit of the `max_elements` budget and is inserted into the visited set — the
counter increment and set insertion happen before the element lookup — and
only then does the traversal emit nothing for it. -/
theorem dangling_trigger_consumes_budget (w : Workshop)
    (max_elements fuel indent : Nat) (eid : String) (st : TraceState)
    (hv : eid ∉ st.visited) (hc : st.element_count < max_elements)
    (hmiss : w.elements.find? (fun e => decide (e.id = eid)) = none) :
    trace_flow w max_elements (fuel + 1) eid indent st =
      ([], { element_count := st.element_count + 1, visited := eid :: st.visited }) := by
  simp only [trace_flow, if_neg hv, if_neg (Nat.not_le.mpr hc), hmiss]

/-- Witness for C9: in the one-element workshop where A triggers the unknown
id "ghost", the recursive call on "ghost" (A already visited, one budget unit
used) adds "ghost" to the visited set and bumps the counter to 2 while
emitting nothing; consequently the whole trace from A ends with
`element_count = 2` and "ghost" visited. -/
theorem dangling_trigger_consumes_budget_witness :
    ("ghost" ∉ (["A"] : List String) ∧ 1 < 100 ∧
      danglingA.elements.find? (fun e => decide (e.id = "ghost")) = none) ∧
    trace_flow danglingA 100 5 "ghost" 1 { element_count := 1, visited := ["A"] } =
      ([], { element_count := 2, visited := ["ghost", "A"] }) ∧
    (trace_flow danglingA 100 6 "A" 0 { element_count := 0, visited := [] }).2 =
      { element_count := 2, visited := ["ghost", "A"] } :=
  ⟨⟨by decide, by decide, by decide⟩,
    dangling_trigger_consumes_budget danglingA 100 4 1 "ghost"
      { element_count := 1, visited := ["A"] } (by decide) (by decide) (by decide),
    by decide⟩

/-- C4 is false as stated: in the chain A→B→C with `max_depth = 2` and an
ample budget, C's only path from the start A is exactly `max_depth` trigger
edges long and nothing else visits or truncates it, yet C is neither visited
nor emitted — the output holds exactly the A and B headers. -/
theorem max_depth_boundary_counterexample :
    (trace_flow chainABC 100 2 "A" 0 { element_count := 0, visited := [] }).1
        = [TraceLine.header 0 ElementType.event "A" "A",
           TraceLine.header 1 ElementType.event "B" "B"] ∧
    "C" ∉ (trace_flow chainABC 100 2 "A" 0
        { element_count := 0, visited := [] }).2.visited := by
  decide

/-- C4 (amended): `max_depth` is an exclusive frontier on hop distance: a
traversal step at `depth ≥ max_depth` (fuel 0) emits nothing and visits
nothing, so elements are emitted only at hop distances `0 .. max_depth - 1`;
on the chain A→B→C, `max_depth = 2` emits A and B but not C, while
`max_depth = 3` emits all three. -/
theorem max_depth_frontier_exclusive :
    (∀ (w : Workshop) (max_elements : Nat) (eid : String) (ind : Nat)
        (st : TraceState), trace_flow w max_elements 0 eid ind st = ([], st)) ∧
    (trace_flow chainABC 100 2 "A" 0 { element_count := 0, visited := [] }).1
        = [TraceLine.header 0 ElementType.event "A" "A",
           TraceLine.header 1 ElementType.event "B" "B"] ∧
    (trace_flow chainABC 100 3 "A" 0 { element_count := 0, visited := [] }).1
        = [TraceLine.header 0 ElementType.event "A" "A",
           TraceLine.header 1 ElementType.event "B" "B",
           TraceLine.header 2 ElementType.event "C" "C"] :=
  ⟨fun _ _ _ _ _ => rfl, by decide, by decide⟩

/-- C3: deleting an existing element id removes that element, strips the id
from every remaining element's `triggers` and `triggered_by` and from every
context's `element_ids`; when no element has the id the operation returns
`NotFound` (`none`) and, being a pure function of the untouched input,
changes nothing. -/
theorem delete_element_cleanup (w : Workshop) (eid now : String) :
    ((∀ e ∈ w.elements, e.id ≠ eid) → delete_element w eid now = none) ∧
    ((∃ e ∈ w.elements, e.id = eid) →
      ∃ w', delete_element w eid now = some w' ∧
        (∀ e ∈ w'.elements, e.id ≠ eid ∧ eid ∉ e.triggers ∧ eid ∉ e.triggered_by) ∧
        (∀ c ∈ w'.bounded_contexts, eid ∉ c.element_ids)) := by
  constructor
  · intro h
    have hfind : w.elements.find? (fun e => decide (e.id = eid)) = none := by
      rw [List.find?_eq_none]
      intro e he
      simpa using h e he
    simp only [delete_element, hfind]
  · rintro ⟨e0, he0, heq⟩
    rcases hfind : w.elements.find? (fun e => decide (e.id = eid)) with _ | ef
    · exact absurd (List.find?_eq_none.mp hfind e0 he0) (by simp [heq])
    · have hdel : delete_element w eid now = some (save_workshop
          { w with
            elements := (w.elements.filter (fun e => e.id ≠ eid)).map (fun e =>
              { e with triggers := e.triggers.filter (fun t => t ≠ eid),
                       triggered_by := e.triggered_by.filter (fun t => t ≠ eid) }),
            bounded_contexts := w.bounded_contexts.map (fun c =>
              { c with element_ids := c.element_ids.filter (fun x => x ≠ eid) }) }
          now) := by
        simp only [delete_element, hfind]
      refine ⟨_, hdel, ?_, ?_⟩
      · intro e he
        obtain ⟨e1, he1, rfl⟩ := List.mem_map.mp he
        have h1 := List.mem_filter.mp he1
        refine ⟨by simpa using h1.2, ?_, ?_⟩
        · intro hmem
          have h2 := (List.mem_filter.mp hmem).2
          simp at h2
        · intro hmem
          have h2 := (List.mem_filter.mp hmem).2
          simp at h2
      · intro c hc
        obtain ⟨c1, hc1, rfl⟩ := List.mem_map.mp hc
        intro hmem
        have h2 := (List.mem_filter.mp hmem).2
        simp at h2

/-- Witness for C3: in `delWorkshop`, X exists; deleting X succeeds and the
cleanup properties hold. -/
theorem delete_element_cleanup_witness :
    (∃ e ∈ delWorkshop.elements, e.id = "X") ∧
    (∃ w', delete_element delWorkshop "X" "t1" = some w' ∧
      (∀ e ∈ w'.elements, e.id ≠ "X" ∧ "X" ∉ e.triggers ∧ "X" ∉ e.triggered_by) ∧
      (∀ c ∈ w'.bounded_contexts, "X" ∉ c.element_ids)) :=
  ⟨⟨mkElement "X" [] ["Y"], by decide, rfl⟩,
    (delete_element_cleanup delWorkshop "X" "t1").2
      ⟨mkElement "X" [] ["Y"], by decide, rfl⟩⟩

theorem lookup_dict_set_self (k : String) (v : Nat) :
    ∀ d : List (String × Nat), (dict_set k v d).lookup k = some v := by
  intro d
  induction d with
  | nil => simp [dict_set, List.lookup]
  | cons kv rest ih =>
      obtain ⟨k', v'⟩ := kv
      simp only [dict_set]
      by_cases h : k' = k
      · rw [if_pos (by simpa using h)]
        simp [List.lookup]
      · rw [if_neg (by simpa using h)]
        rw [List.lookup_cons]
        have hbeq : (k == k') = false := by simp [Ne.symm h]
        rw [hbeq]
        exact ih

theorem lookup_dict_set_ne (k k0 : String) (v : Nat) (h : k ≠ k0) :
    ∀ d : List (String × Nat), (dict_set k v d).lookup k0 = d.lookup k0 := by
  intro d
  induction d with
  | nil =>
      simp only [dict_set]
      rw [List.lookup_cons]
      have hbeq : (k0 == k) = false := by simp [Ne.symm h]
      rw [hbeq]
  | cons kv rest ih =>
      obtain ⟨k', v'⟩ := kv
      simp only [dict_set]
      by_cases hk : k' = k
      · subst hk
        rw [if_pos rfl]
        rw [List.lookup_cons, List.lookup_cons]
        have hbeq : (k0 == k') = false := by simp [Ne.symm h]
        rw [hbeq]
      · rw [if_neg (by simpa using hk)]
        rw [List.lookup_cons, List.lookup_cons]
        cases hbeq : (k0 == k') <;> simp [ih]

theorem stats_foldl_lookup (name : String) :
    ∀ (cs : List BoundedContext) (d : List (String × Nat)),
      (cs.foldl (fun d c => dict_set c.name c.element_ids.length d) d).lookup name =
        (match (cs.filter (fun c => decide (c.name = name))).getLast? with
          | some c => some c.element_ids.length
          | none => d.lookup name) := by
  intro cs
  induction cs with
  | nil => intro d; rfl
  | cons c cs ih =>
      intro d
      rw [List.foldl_cons, ih]
      by_cases hc : c.name = name
      · rw [List.filter_cons_of_pos (by simpa using hc)]
        rcases hfc : cs.filter (fun c => decide (c.name = name)) with _ | ⟨c', l⟩
        · rw [hfc]
          simp only [List.getLast?_singleton]
          rw [hc]
          exact lookup_dict_set_self name c.element_ids.length d
        · rw [hfc]
          simp only [List.getLast?_cons_cons]
          rcases hg : (c' :: l).getLast? with _ | x
          · simp at hg
          · rfl
      · rw [List.filter_cons_of_neg (by simpa using hc)]
        rcases hfc : cs.filter (fun c => decide (c.name = name)) with _ | ⟨c', l⟩
        · rw [hfc]
          exact lookup_dict_set_ne c.name name c.element_ids.length hc d
        · rw [hfc]
          rcases hg : (c' :: l).getLast? with _ | x
          · simp at hg
          · rfl

/-- C5 is false as stated: with two contexts both named "X", holding 2 and 1
elements respectively, the by_context entry for "X" is 1 — the later
context's count overwrites the earlier's — and not 3, the merged count of
both. -/
theorem stats_merge_counterexample :
    (stats_by_context twoCtxSameName).lookup "X" = some 1 ∧
    (stats_by_context twoCtxSameName).lookup "X" ≠ some (2 + 1) := by
  decide

/-- C5 (amended): the per-context statistics are keyed by context name, and
when several contexts share a name the LAST one's element count is what the
key reports (each dict assignment overwrites the previous), not a merged
total. -/
theorem stats_by_context_last_wins (w : Workshop) (name : String) :
    (stats_by_context w).lookup name =
      ((w.bounded_contexts.filter (fun c => decide (c.name = name))).getLast?).map
        (fun c => c.element_ids.length) := by
  rw [stats_by_context, stats_foldl_lookup name w.bounded_contexts []]
  rcases hg : (w.bounded_contexts.filter (fun c => decide (c.name = name))).getLast?
    with _ | c
  · rw [hg]
    rfl
  · rw [hg]
    rfl

/-- C7: when `position` is omitted, `add_element` assigns the count of
existing elements of the same type — a per-type 0-indexed counter, not a
global one. -/
theorem auto_position_per_type (w : Workshop) (params : AddElementParams)
    (element_id now : String) (h : params.position = none) :
    (add_element w params element_id now).2.position =
      (w.elements.filter (fun e => decide (e.type = params.type))).length := by
  simp only [add_element, h]

/-- Witness for C7: `wTwoEvents` holds exactly two events plus one command
(three elements in total); adding an event without a position yields
position 2 — the per-type count, not the global count 3. -/
theorem auto_position_per_type_witness :
    paramsEvent.position = none ∧
    (wTwoEvents.elements.filter
      (fun e => decide (e.type = paramsEvent.type))).length = 2 ∧
    wTwoEvents.elements.length = 3 ∧
    (add_element wTwoEvents paramsEvent "e3id" "t1").2.position = 2 :=
  ⟨rfl, by decide, by decide,
    (auto_position_per_type wTwoEvents paramsEvent "e3id" "t1" rfl).trans (by decide)⟩

/-- C10: updating an existing element with the empty patch returns success
with an empty updated-fields list, leaves every field of every element —
except the target's `updated_at`, which is re-stamped — and every context
unchanged, and stamps the workshop's `updated_at` through the save. -/
theorem update_element_empty_patch (w : Workshop) (eid now : String)
    (h : ∃ e ∈ w.elements, e.id = eid) :
    ∃ w', update_element w eid UpdateElementPatch.empty now = some ([], w') ∧
      w'.elements = update_first (fun e => decide (e.id = eid))
        (fun e => { e with updated_at := now }) w.elements ∧
      w'.bounded_contexts = w.bounded_contexts ∧
      w'.metadata = { w.metadata with updated_at := now } := by
  obtain ⟨e0, he0, heq⟩ := h
  rcases hfind : w.elements.find? (fun e => decide (e.id = eid)) with _ | ef
  · exact absurd (List.find?_eq_none.mp hfind e0 he0) (by simp [heq])
  · have hupd : update_element w eid UpdateElementPatch.empty now =
        some (updated_fields_of UpdateElementPatch.empty,
          save_workshop { w with
            elements := update_first (fun e => decide (e.id = eid))
              (apply_patch UpdateElementPatch.empty now) w.elements,
            bounded_contexts := w.bounded_contexts } now) := by
      simp only [update_element, hfind]
      rfl
    exact ⟨_, hupd, rfl, rfl, rfl⟩

/-- Witness for C10: element X of `delWorkshop` exists; the empty patch
returns `([], w')` with only the two `updated_at` stamps changed. -/
theorem update_element_empty_patch_witness :
    (∃ e ∈ delWorkshop.elements, e.id = "X") ∧
    (∃ w', update_element delWorkshop "X" UpdateElementPatch.empty "t9"
        = some ([], w') ∧
      w'.elements = update_first (fun e => decide (e.id = "X"))
        (fun e => { e with updated_at := "t9" }) delWorkshop.elements ∧
      w'.bounded_contexts = delWorkshop.bounded_contexts ∧
      w'.metadata = { delWorkshop.metadata with updated_at := "t9" }) :=
  ⟨⟨mkElement "X" [] ["Y"], by decide, rfl⟩,
    update_element_empty_patch delWorkshop "X" "t9"
      ⟨mkElement "X" [] ["Y"], by decide, rfl⟩⟩

section UpdateFirstLemmas

variable {α : Type _} {β : Type _}

/-- `update_first` keeps every projection that `f` preserves. -/
theorem map_update_first (g : α → β) (p : α → Bool) (f : α → α)
    (hfg : ∀ a, g (f a) = g a) :
    ∀ l : List α, (update_first p f l).map g = l.map g := by
  intro l
  induction l with
  | nil => rfl
  | cons x xs ih =>
      simp only [update_first]
      by_cases h : p x = true
      · rw [if_pos h]
        simp [hfg]
      · rw [if_neg h]
        simp [ih]

/-- With a predicate invariant under `f`, `find?` sees `update_first p f` as a
`map` on its own result. -/
theorem find?_update_first_self (p : α → Bool) (f : α → α)
    (hp : ∀ a, p (f a) = p a) :
    ∀ l : List α, (update_first p f l).find? p = (l.find? p).map f := by
  intro l
  induction l with
  | nil => rfl
  | cons x xs ih =>
      simp only [update_first]
      by_cases h : p x = true
      · rw [if_pos h]
        rw [List.find?_cons_of_pos _ (by rw [hp]; exact h),
          List.find?_cons_of_pos _ h]
        rfl
      · rw [if_neg h]
        rw [List.find?_cons_of_neg _ h, List.find?_cons_of_neg _ h]
        exact ih

/-- `find?` for a predicate disjoint from `p` (and invariant under `f`)
ignores `update_first p f`. -/
theorem find?_update_first_of_disjoint (p q : α → Bool) (f : α → α)
    (hq : ∀ a, q (f a) = q a) (hdisj : ∀ a, q a = true → p a = false) :
    ∀ l : List α, (update_first p f l).find? q = l.find? q := by
  intro l
  induction l with
  | nil => rfl
  | cons x xs ih =>
      simp only [update_first]
      by_cases h : p x = true
      · rw [if_pos h]
        have hqx : q x = false := by
          cases hq2 : q x with
          | false => rfl
          | true => rw [hdisj x hq2] at h; simp at h
        have hqfx : q (f x) = false := by rw [hq]; exact hqx
        rw [List.find?_cons_of_neg _ (by simp [hqfx]),
          List.find?_cons_of_neg _ (by simp [hqx])]
      · rw [if_neg h]
        by_cases h2 : q x = true
        · rw [List.find?_cons_of_pos _ h2, List.find?_cons_of_pos _ h2]
        · rw [List.find?_cons_of_neg _ h2, List.find?_cons_of_neg _ h2]
          exact ih

/-- A list entry failing `p` survives `update_first p f` untouched. -/
theorem mem_update_first_of_neg (p : α → Bool) (f : α → α) (a : α) :
    ∀ l : List α, a ∈ l → p a = false → a ∈ update_first p f l := by
  intro l
  induction l with
  | nil => intro h _; exact absurd h (List.not_mem_nil a)
  | cons x xs ih =>
      intro hmem hpa
      simp only [update_first]
      rcases List.mem_cons.mp hmem with rfl | hxs
      · rw [if_neg (by simp [hpa])]
        exact List.mem_cons_self a (update_first p f xs)
      · by_cases h : p x = true
        · rw [if_pos h]
          exact List.mem_cons_of_mem _ hxs
        · rw [if_neg h]
          exact List.mem_cons_of_mem _ (ih hxs hpa)

end UpdateFirstLemmas

/-- Whether a by-id lookup succeeds depends only on the id projection. -/
theorem elems_find_isSome_of_ids (x : String) :
    ∀ (l1 l2 : List EventStormingElement),
      l1.map (fun e => e.id) = l2.map (fun e => e.id) →
      (l1.find? (fun e => decide (e.id = x))).isSome
        = (l2.find? (fun e => decide (e.id = x))).isSome := by
  intro l1
  induction l1 with
  | nil =>
      intro l2 h
      cases l2 with
      | nil => rfl
      | cons y ys => simp at h
  | cons e es ih =>
      intro l2 h
      cases l2 with
      | nil => simp at h
      | cons f fs =>
          simp only [List.map_cons, List.cons.injEq] at h
          obtain ⟨hid, hrest⟩ := h
          by_cases hx : e.id = x
          · rw [List.find?_cons_of_pos _ (by simp [hx]),
              List.find?_cons_of_pos _ (by simp [hid.symm.trans hx])]
            rfl
          · have hfx : ¬ f.id = x := fun hfx => hx (hid.trans hfx)
            rw [List.find?_cons_of_neg _ (by simp [hx]),
              List.find?_cons_of_neg _ (by simp [hfx])]
            exact ih fs hrest

theorem assign_step_elements_ids (cid eid : String) (w : Workshop) :
    (assign_step cid eid w).elements.map (fun e => e.id)
      = w.elements.map (fun e => e.id) := by
  simp only [assign_step]
  apply map_update_first
  intro a
  rfl

theorem assign_step_elemFind_isSome (cid eid x : String) (w : Workshop) :
    (elemFind (assign_step cid eid w) x).isSome = (elemFind w x).isSome := by
  simp only [elemFind]
  exact elems_find_isSome_of_ids x _ _ (assign_step_elements_ids cid eid w)

theorem assign_step_elemFind_self (cid eid : String) (w : Workshop) :
    elemFind (assign_step cid eid w) eid =
      (elemFind w eid).map (fun e => { e with bounded_context_id := some cid }) := by
  simp only [elemFind, assign_step]
  apply find?_update_first_self
  intro a
  rfl

theorem assign_step_elemFind_ne (cid eid x : String) (w : Workshop)
    (h : x ≠ eid) :
    elemFind (assign_step cid eid w) x = elemFind w x := by
  simp only [elemFind, assign_step]
  apply find?_update_first_of_disjoint
  · intro a
    rfl
  · intro a ha
    have hax : a.id = x := by simpa using ha
    simp [hax, h]

theorem assign_step_ctxFind (cid eid : String) (w : Workshop) :
    ctxFind (assign_step cid eid w) cid =
      (ctxFind w cid).map (fun c => if eid ∈ c.element_ids then c
        else { c with element_ids := c.element_ids ++ [eid] }) := by
  simp only [ctxFind, assign_step]
  apply find?_update_first_self
  intro a
  by_cases h : eid ∈ a.element_ids <;> simp [h]

theorem assign_loop_not_mem_elemFind (cid : String) :
    ∀ (eids : List String) (w : Workshop) (x : String), x ∉ eids →
      elemFind (assign_loop cid eids w).1 x = elemFind w x := by
  intro eids
  induction eids with
  | nil => intro w x _; rfl
  | cons eid rest ih =>
      intro w x h
      have hxe : x ≠ eid := fun he => h (he ▸ List.mem_cons_self _ _)
      have hxr : x ∉ rest := fun hr => h (List.mem_cons_of_mem _ hr)
      cases hfind : w.elements.find? (fun e => decide (e.id = eid)) with
      | some e =>
          simp only [assign_loop, hfind]
          rw [ih _ x hxr, assign_step_elemFind_ne cid eid x w hxe]
      | none =>
          simp only [assign_loop, hfind]
          exact ih w x hxr

theorem assign_loop_sets_bcid (cid : String) :
    ∀ (eids : List String) (w : Workshop) (x : String),
      x ∈ eids → (elemFind w x).isSome = true →
      (elemFind (assign_loop cid eids w).1 x).map (fun e => e.bounded_context_id)
        = some (some cid) := by
  intro eids
  induction eids with
  | nil => intro w x h _; exact absurd h (List.not_mem_nil x)
  | cons eid rest ih =>
      intro w x hx hex
      by_cases hxr : x ∈ rest
      · cases hfind : w.elements.find? (fun e => decide (e.id = eid)) with
        | some e =>
            simp only [assign_loop, hfind]
            exact ih _ x hxr (by rw [assign_step_elemFind_isSome]; exact hex)
        | none =>
            simp only [assign_loop, hfind]
            exact ih w x hxr hex
      · have hxeid : x = eid := by
          rcases List.mem_cons.mp hx with h | h
          · exact h
          · exact absurd h hxr
        subst hxeid
        obtain ⟨e, he⟩ := Option.isSome_iff_exists.mp hex
        have hfind : w.elements.find? (fun e => decide (e.id = x)) = some e := he
        simp only [assign_loop, hfind]
        rw [assign_loop_not_mem_elemFind cid rest _ x hxr,
          assign_step_elemFind_self cid x w, he]
        rfl

theorem assign_loop_partition (cid : String) :
    ∀ (eids : List String) (w : Workshop),
      (assign_loop cid eids w).2.1
          = eids.filter (fun x => (elemFind w x).isSome) ∧
      (assign_loop cid eids w).2.2
          = eids.filter (fun x => !(elemFind w x).isSome) := by
  intro eids
  induction eids with
  | nil => intro w; exact ⟨rfl, rfl⟩
  | cons eid rest ih =>
      intro w
      cases hfind : w.elements.find? (fun e => decide (e.id = eid)) with
      | some e =>
          have hsome : (elemFind w eid).isSome = true := by
            simp [elemFind, hfind]
          simp only [assign_loop, hfind]
          constructor
          · rw [List.filter_cons_of_pos (by simp [hsome]), (ih _).1]
            congr 1
            exact List.filter_congr
              (fun x _ => by rw [assign_step_elemFind_isSome])
          · rw [List.filter_cons_of_neg (by simp [hsome]), (ih _).2]
            exact List.filter_congr
              (fun x _ => by rw [assign_step_elemFind_isSome])
      | none =>
          have hnone : (elemFind w eid).isSome = false := by
            simp [elemFind, hfind]
          simp only [assign_loop, hfind]
          constructor
          · rw [List.filter_cons_of_neg (by simp [hnone]), (ih w).1]
          · rw [List.filter_cons_of_pos (by simp [hnone]), (ih w).2]

theorem assign_loop_ctx (cid : String) :
    ∀ (eids : List String) (w : Workshop) (c : BoundedContext),
      ctxFind w cid = some c →
      ∃ c', ctxFind (assign_loop cid eids w).1 cid = some c' ∧
        (∀ x, x ∈ c.element_ids → x ∈ c'.element_ids) ∧
        (c.element_ids.Nodup → c'.element_ids.Nodup) ∧
        (∀ x ∈ eids, (elemFind w x).isSome = true → x ∈ c'.element_ids) := by
  intro eids
  induction eids with
  | nil =>
      intro w c hc
      exact ⟨c, hc, fun _ hx => hx, id, fun x hx => absurd hx (List.not_mem_nil x)⟩
  | cons eid rest ih =>
      intro w c hc
      cases hfind : w.elements.find? (fun e => decide (e.id = eid)) with
      | some e =>
          simp only [assign_loop, hfind]
          have hstep := assign_step_ctxFind cid eid w
          rw [hc] at hstep
          obtain ⟨c', hfind', hmono, hnd, hassigned⟩ :=
            ih (assign_step cid eid w) _ hstep
          refine ⟨c', hfind', ?_, ?_, ?_⟩
          · intro x hx
            apply hmono
            by_cases h : eid ∈ c.element_ids <;> simp [h, hx]
          · intro hnodup
            apply hnd
            by_cases h : eid ∈ c.element_ids
            · simpa [h] using hnodup
            · simp only [if_neg h]
              rw [(List.perm_append_singleton eid c.element_ids).nodup_iff]
              exact List.nodup_cons.mpr ⟨h, hnodup⟩
          · intro x hx hex
            rcases List.mem_cons.mp hx with heq | hxrest
            · rw [heq]
              apply hmono
              by_cases h : eid ∈ c.element_ids <;> simp [h]
            · exact hassigned x hxrest
                (by rw [assign_step_elemFind_isSome]; exact hex)
      | none =>
          simp only [assign_loop, hfind]
          obtain ⟨c', h1, h2, h3, h4⟩ := ih w c hc
          refine ⟨c', h1, h2, h3, ?_⟩
          intro x hx hex
          rcases List.mem_cons.mp hx with heq | hxrest
          · rw [heq] at hex
            simp only [elemFind, hfind] at hex
            simp at hex
          · exact h4 x hxrest hex

theorem assign_loop_preserves_other_ctx (cid : String) :
    ∀ (eids : List String) (w : Workshop) (a : BoundedContext),
      a ∈ w.bounded_contexts → a.id ≠ cid →
      a ∈ (assign_loop cid eids w).1.bounded_contexts := by
  intro eids
  induction eids with
  | nil => intro w a ha _; exact ha
  | cons eid rest ih =>
      intro w a ha hne
      cases hfind : w.elements.find? (fun e => decide (e.id = eid)) with
      | some e =>
          simp only [assign_loop, hfind]
          exact ih _ a (mem_update_first_of_neg _ _ a _ ha (by simp [hne])) hne
      | none =>
          simp only [assign_loop, hfind]
          exact ih w a ha hne

/-- C6: `assign_to_context` fails with `NotFound` (`none`) exactly when the
context id does not exist; otherwise the call succeeds, each supplied id
naming an existing element gets its `bounded_context_id` set to the context
and its id added to the context's `element_ids` without introducing
duplicates, and each missing id lands in the non-fatal `not_found` list
(`assigned`/`not_found` partition the input by element existence). -/
theorem assign_to_context_contract (w : Workshop) (cid : String)
    (eids : List String) (now : String) :
    ((ctxFind w cid = none) → assign_to_context w cid eids now = none) ∧
    (∀ c0, ctxFind w cid = some c0 →
      ∃ r, assign_to_context w cid eids now = some r ∧
        r.assigned = eids.filter (fun x => (elemFind w x).isSome) ∧
        r.not_found = eids.filter (fun x => !(elemFind w x).isSome) ∧
        (∀ x ∈ eids, (elemFind w x).isSome = true →
          (elemFind r.workshop x).map (fun e => e.bounded_context_id)
            = some (some cid)) ∧
        (∃ c', ctxFind r.workshop cid = some c' ∧
          (∀ x ∈ eids, (elemFind w x).isSome = true → x ∈ c'.element_ids) ∧
          (c0.element_ids.Nodup → c'.element_ids.Nodup))) := by
  constructor
  · intro h
    have h' : w.bounded_contexts.find? (fun c => decide (c.id = cid)) = none := h
    simp only [assign_to_context, h']
  · intro c0 hc0
    have hc0' : w.bounded_contexts.find? (fun c => decide (c.id = cid))
        = some c0 := hc0
    simp only [assign_to_context, hc0']
    refine ⟨_, rfl, (assign_loop_partition cid eids w).1,
      (assign_loop_partition cid eids w).2, ?_, ?_⟩
    · intro x hx hex
      exact assign_loop_sets_bcid cid eids w x hx hex
    · obtain ⟨c', h1, _, h3, h4⟩ := assign_loop_ctx cid eids w c0 hc0
      exact ⟨c', h1, h4, h3⟩

/-- Witness for C6: in `assignWorkshop` (context c1, elements e1 and e2),
assigning `[e1, e2, missing]` succeeds, assigns e1 and e2, reports `missing`
as not found, and both assigned ids end up in c1's (duplicate-free)
`element_ids`; the concrete response lists are `["e1", "e2"]` and
`["missing"]`. -/
theorem assign_to_context_contract_witness :
    (ctxFind assignWorkshop "c1" = some (mkContext "c1" "Context One" [])) ∧
    (∃ r, assign_to_context assignWorkshop "c1" ["e1", "e2", "missing"] "t2"
        = some r ∧
      r.assigned = ["e1", "e2", "missing"].filter
        (fun x => (elemFind assignWorkshop x).isSome) ∧
      r.not_found = ["e1", "e2", "missing"].filter
        (fun x => !(elemFind assignWorkshop x).isSome) ∧
      (∀ x ∈ ["e1", "e2", "missing"],
        (elemFind assignWorkshop x).isSome = true →
        (elemFind r.workshop x).map (fun e => e.bounded_context_id)
          = some (some "c1")) ∧
      (∃ c', ctxFind r.workshop "c1" = some c' ∧
        (∀ x ∈ ["e1", "e2", "missing"],
          (elemFind assignWorkshop x).isSome = true → x ∈ c'.element_ids) ∧
        ((mkContext "c1" "Context One" []).element_ids.Nodup →
          c'.element_ids.Nodup))) ∧
    ((assign_to_context assignWorkshop "c1" ["e1", "e2", "missing"] "t2").map
        (fun r => r.assigned) = some ["e1", "e2"]) ∧
    ((assign_to_context assignWorkshop "c1" ["e1", "e2", "missing"] "t2").map
        (fun r => r.not_found) = some ["missing"]) :=
  ⟨by decide,
    (assign_to_context_contract assignWorkshop "c1" ["e1", "e2", "missing"]
        "t2").2 (mkContext "c1" "Context One" []) (by decide),
    by decide, by decide⟩

/-- C8: re-assigning an already-assigned element to a different context B
sets its `bounded_context_id` to B and adds it to B's `element_ids`, but the
old context A's `element_ids` is left untouched — A survives verbatim in the
result, so the element stays listed in both contexts' `element_ids`. -/
theorem assign_stale_old_membership (w : Workshop) (a : BoundedContext)
    (bId eid now : String)
    (ha : a ∈ w.bounded_contexts) (hab : a.id ≠ bId)
    (hmem : eid ∈ a.element_ids)
    (he : (elemFind w eid).isSome = true)
    (hb : (ctxFind w bId).isSome = true) :
    ∃ r, assign_to_context w bId [eid] now = some r ∧
      a ∈ r.workshop.bounded_contexts ∧
      eid ∈ a.element_ids ∧
      (elemFind r.workshop eid).map (fun e => e.bounded_context_id)
        = some (some bId) ∧
      (∃ c', ctxFind r.workshop bId = some c' ∧ eid ∈ c'.element_ids) := by
  obtain ⟨c0, hc0⟩ := Option.isSome_iff_exists.mp hb
  have hc0' : w.bounded_contexts.find? (fun c => decide (c.id = bId))
      = some c0 := hc0
  simp only [assign_to_context, hc0']
  refine ⟨_, rfl, ?_, hmem, ?_, ?_⟩
  · exact assign_loop_preserves_other_ctx bId [eid] w a ha hab
  · exact assign_loop_sets_bcid bId [eid] w eid (List.mem_cons_self _ _) he
  · obtain ⟨c', h1, _, _, h4⟩ := assign_loop_ctx bId [eid] w c0 hc0
    exact ⟨c', h1, h4 eid (List.mem_cons_self _ _) he⟩

/-- Witness for C8: in `staleWorkshop`, element e sits in context a; after
assigning it to context b, context a still lists e, e's
`bounded_context_id` is b, and b's `element_ids` now contains e. -/
theorem assign_stale_old_membership_witness :
    (mkContext "a" "A" ["e"] ∈ staleWorkshop.bounded_contexts ∧
      (mkContext "a" "A" ["e"]).id ≠ "b" ∧
      "e" ∈ (mkContext "a" "A" ["e"]).element_ids ∧
      (elemFind staleWorkshop "e").isSome = true ∧
      (ctxFind staleWorkshop "b").isSome = true) ∧
    (∃ r, assign_to_context staleWorkshop "b" ["e"] "t3" = some r ∧
      mkContext "a" "A" ["e"] ∈ r.workshop.bounded_contexts ∧
      "e" ∈ (mkContext "a" "A" ["e"]).element_ids ∧
      (elemFind r.workshop "e").map (fun e => e.bounded_context_id)
        = some (some "b") ∧
      (∃ c', ctxFind r.workshop "b" = some c' ∧ "e" ∈ c'.element_ids)) :=
  ⟨⟨by decide, by decide, by decide, by decide, by decide⟩,
    assign_stale_old_membership staleWorkshop (mkContext "a" "A" ["e"])
      "b" "e" "t3" (by decide) (by decide) (by decide) (by decide) (by decide)⟩

end EventStorming
